import Mathlib

/-!
Verification of the ingestion-and-retrieval (RAG) pipeline of the
`mcp-chat-bot` repository.

Python strings are embedded as `List Char`; Python's unbounded integers as
`Int` (indices in the chunking loop can go negative, so `Nat` would be
unfaithful).  Remote collaborators (the OpenAI embedding / chat services,
the Pinecone index, the JSON file layer) are passed in as explicit oracle
functions returning `Except`, mirroring the `try/except` structure of the
source; a raised exception is `Except.error`.

All definitions are direct translations of
`backend/utils/document_processor.py`, `backend/utils/rag_pipeline.py` and
`backend/utils/vector_store.py`; configuration constants come from
`backend/config/settings.py`.
-/

namespace MCP

/-! ## Python string primitives -/

/-- Python whitespace test (`str.isspace` / regex `\s`), for the ASCII range
the corpus uses: space, tab, newline, vertical tab, form feed, carriage
return. -/
def isPySpace (c : Char) : Bool :=
  c = ' ' || c = '\t' || c = '\n' || c = '\x0b' || c = '\x0c' || c = '\r'

/-- Regex `\w` (ASCII range): letters, digits, underscore. -/
def isWordChar (c : Char) : Bool :=
  ('a' ≤ c && c ≤ 'z') || ('A' ≤ c && c ≤ 'Z') || ('0' ≤ c && c ≤ '9') || c = '_'

/-- The terminal-punctuation class `[.!?]` of `clean_text`'s third regex. -/
def isTermPunct (c : Char) : Bool :=
  c = '.' || c = '!' || c = '?'

/-- The allow-list `[\w\s.,!?;:\-()]` of `clean_text`'s second regex. -/
def isAllowedChar (c : Char) : Bool :=
  isWordChar c || isPySpace c || c = '.' || c = ',' || c = '!' || c = '?' ||
    c = ';' || c = ':' || c = '-' || c = '(' || c = ')'

/-- Python slice-index normalization: a negative index is taken from the end
of the string, then the result is clamped to `[0, n]`. -/
def pyNormIdx (n : Nat) (i : Int) : Nat :=
  (min (max (if i < 0 then i + n else i) 0) (n : Int)).toNat

/-- Python `s[a:b]` for a string. -/
def pySlice (s : List Char) (a b : Int) : List Char :=
  let na := pyNormIdx s.length a
  let nb := pyNormIdx s.length b
  (s.drop na).take (nb - na)

/-- Largest index `j` with `na ≤ j < nb` and `s[j] = c`, if any. -/
def lastIdxOf (s : List Char) (c : Char) (na nb : Nat) : Option Nat :=
  ((List.range' na (nb - na)).filter (fun j => s.getD j ' ' == c)).getLast?

/-- Python `s.rfind(c, a, b)`: highest index of `c` in `s[a:b]` (reported as
an absolute index), or `-1` when absent.  Indices are normalized like slice
bounds. -/
def pyRfind (s : List Char) (c : Char) (a b : Int) : Int :=
  match lastIdxOf s c (pyNormIdx s.length a) (pyNormIdx s.length b) with
  | some j => (j : Int)
  | none => -1

/-- Python `s.strip()`: drop leading and trailing whitespace. -/
def pyStrip (s : List Char) : List Char :=
  ((s.dropWhile isPySpace).reverse.dropWhile isPySpace).reverse

/-! ## Chunker (`DocumentProcessor.chunk_text`, document_processor.py 27-63)

The `while start < len(text)` loop is embedded with explicit fuel; the
source has no guard that makes `start` advance, and indeed it does not
always terminate (see the C3 analysis below), so the fuel is essential to
keep the embedding total.  `none` means the fuel ran out before the loop
finished. -/

/-- Lines 41-53 of `chunk_text`: the upper cut position `end` of the window
starting at `start`.  `end = start + chunk_size`, snapped back to the last
sentence terminator (`.`) past the window midpoint when one exists, else to
the last space past the midpoint, but only when the window does not already
reach the end of the text.  Python's `//` is floor division (`Int.fdiv`). -/
def chunkEnd (text : List Char) (cs start : Int) : Int :=
  let n : Int := text.length
  let e0 := start + cs
  if e0 < n then
    let se := pyRfind text '.' start e0
    if se > start + Int.fdiv cs 2 then se + 1
    else
      let we := pyRfind text ' ' start e0
      if we > start + Int.fdiv cs 2 then we
      else e0
  else e0

/-- The `while start < len(text)` loop of `chunk_text` (lines 40-61).
`start` is an `Int` because `start = end - overlap` can go negative in
Python.  The stripped window is appended only when non-empty; the loop
breaks as soon as the updated start reaches the end of the text. -/
def chunkLoop (text : List Char) (cs ov : Int) : Nat → Int → Option (List (List Char))
  | 0, _ => none
  | fuel + 1, start =>
    let n : Int := text.length
    if start < n then
      let e := chunkEnd text cs start
      let chunk := pyStrip (pySlice text start e)
      let nstart := e - ov
      let rest := if nstart ≥ n then some [] else chunkLoop text cs ov fuel nstart
      Option.map (fun r => if chunk.isEmpty then r else chunk :: r) rest
    else some []

/-- `DocumentProcessor.chunk_text` (lines 34-63): texts no longer than
`chunk_size` are returned whole; longer texts go through the sliding-window
loop. -/
def chunk_text (text : List Char) (cs ov : Int) (fuel : Nat) : Option (List (List Char)) :=
  if (text.length : Int) ≤ cs then some [text] else chunkLoop text cs ov fuel 0

/-- `chunk_text` terminates on an input when some amount of fuel completes
the loop. -/
def chunkTextTerminates (text : List Char) (cs ov : Int) : Prop :=
  ∃ fuel r, chunk_text text cs ov fuel = some r

/-! ## Arithmetic facts about the string primitives -/

lemma pyNormIdx_eq (n : Nat) (i : Int) :
    (pyNormIdx n i : Int) = min (max (if i < 0 then i + n else i) 0) (n : Int) := by
  unfold pyNormIdx; split <;> omega

lemma length_pySlice (s : List Char) (a b : Int) :
    (pySlice s a b).length =
      min (pyNormIdx s.length b - pyNormIdx s.length a) (s.length - pyNormIdx s.length a) := by
  simp [pySlice]

lemma length_pyStrip_le (s : List Char) : (pyStrip s).length ≤ s.length := by
  unfold pyStrip
  have h1 := (List.dropWhile_sublist (l := s) isPySpace).length_le
  have h2 :=
    (List.dropWhile_sublist (l := (s.dropWhile isPySpace).reverse) isPySpace).length_le
  simp only [List.length_reverse] at *
  omega

/-- A non-empty stripped string contains a non-whitespace character. -/
lemma pyStrip_nonspace (s : List Char) (h : pyStrip s ≠ []) :
    ∃ ch ∈ pyStrip s, isPySpace ch = false := by
  unfold pyStrip at h ⊢
  have hyne : (s.dropWhile isPySpace).reverse.dropWhile isPySpace ≠ [] := by
    intro hh; exact h (by rw [hh]; rfl)
  exact ⟨_, List.mem_reverse.2 (List.head_mem hyne),
    List.head_dropWhile_not isPySpace _ hyne⟩

/-- `pyRfind` either fails with `-1` or returns an absolute index inside the
normalized search window. -/
lemma pyRfind_bounds (s : List Char) (c : Char) (a b : Int) :
    pyRfind s c a b = -1 ∨
      ((pyNormIdx s.length a : Int) ≤ pyRfind s c a b ∧
        pyRfind s c a b < (pyNormIdx s.length b : Int)) := by
  unfold pyRfind lastIdxOf
  rcases h : (((List.range' (pyNormIdx s.length a)
      (pyNormIdx s.length b - pyNormIdx s.length a)).filter
        (fun j => s.getD j ' ' == c))).getLast? with _ | j
  · exact Or.inl rfl
  · have hj : j ∈ List.range' (pyNormIdx s.length a)
        (pyNormIdx s.length b - pyNormIdx s.length a) :=
      (List.mem_filter.1 (List.mem_of_getLast?_eq_some h)).1
    rw [List.mem_range'] at hj
    obtain ⟨i, hi, rfl⟩ := hj
    right
    constructor <;> · simp only [Nat.cast_add, Nat.cast_mul, Nat.cast_one]; omega

/-! ## Facts about `chunkEnd` -/

/-- Case analysis of the cut position: either the window is not snapped
(`end = start + chunk_size`), or it is snapped to a position inside the
normalized window, or a failed `rfind` result `-1` slipped past the midpoint
guard (only possible when `start < -1 - chunk_size // 2`). -/
lemma chunkEnd_cases (text : List Char) (cs start : Int) :
    chunkEnd text cs start = start + cs ∨
      (start + cs < (text.length : Int) ∧ 0 ≤ chunkEnd text cs start ∧
        (chunkEnd text cs start : Int) ≤ (pyNormIdx text.length (start + cs) : Int)) ∨
      (start + cs < (text.length : Int) ∧ chunkEnd text cs start = -1 ∧
        start + Int.fdiv cs 2 < -1) := by
  simp only [chunkEnd]
  split_ifs with g1 g2 g3
  · rcases pyRfind_bounds text '.' start (start + cs) with h1 | h1 <;>
      · refine Or.inr (Or.inl ⟨g1, ?_, ?_⟩) <;> omega
  · rcases pyRfind_bounds text ' ' start (start + cs) with h2 | h2
    · exact Or.inr (Or.inr ⟨g1, h2, by omega⟩)
    · refine Or.inr (Or.inl ⟨g1, ?_, ?_⟩) <;> omega
  · exact Or.inl rfl
  · exact Or.inl rfl

/-- Lower bounds for the cut position: it always lies strictly past the
window midpoint, and (for parameters with `0 ≤ overlap < chunk_size` and a
reachable `start`) never below `-1`. -/
lemma chunkEnd_lb (text : List Char) (cs ov start : Int) (hov : 0 ≤ ov)
    (hovcs : ov < cs) (hstart : -1 - ov ≤ start) :
    start + Int.fdiv cs 2 + 1 ≤ chunkEnd text cs start ∧ -1 ≤ chunkEnd text cs start := by
  have hfd : Int.fdiv cs 2 = cs / 2 := Int.fdiv_eq_ediv _ (by omega)
  simp only [chunkEnd]
  split_ifs with g1 g2 g3
  · rcases pyRfind_bounds text '.' start (start + cs) with h1 | h1 <;> omega
  · rcases pyRfind_bounds text ' ' start (start + cs) with h2 | h2 <;> omega
  · omega
  · omega

/-- Every window the loop strips has at most `chunk_size` characters, for
valid parameters and a `start` the loop can reach. -/
lemma chunk_window_le (text : List Char) (cs ov start : Int) (hov : 0 ≤ ov)
    (hovcs : ov < cs) (hstart : -1 - ov ≤ start) (hsn : start < (text.length : Int)) :
    ((pyStrip (pySlice text start (chunkEnd text cs start))).length : Int) ≤ cs := by
  have hfd : Int.fdiv cs 2 = cs / 2 := Int.fdiv_eq_ediv _ (by omega)
  have hA := pyNormIdx_eq text.length start
  have hC := pyNormIdx_eq text.length (start + cs)
  rcases chunkEnd_cases text cs start with hc | hc | hc
  · rw [hc]
    have hstrip := length_pyStrip_le (pySlice text start (start + cs))
    have hlen := length_pySlice text start (start + cs)
    split_ifs at hA hC <;> omega
  · obtain ⟨h1, h2, h3⟩ := hc
    have hstrip := length_pyStrip_le (pySlice text start (chunkEnd text cs start))
    have hlen := length_pySlice text start (chunkEnd text cs start)
    have hE := pyNormIdx_eq text.length (chunkEnd text cs start)
    split_ifs at hA hC hE <;> omega
  · obtain ⟨h1, h2, h3⟩ := hc
    rw [h2]
    have hstrip := length_pyStrip_le (pySlice text start (-1))
    have hlen := length_pySlice text start (-1)
    have hE := pyNormIdx_eq text.length (-1)
    split_ifs at hA hE <;> omega

/-- With fuel `text.length` past the current position, the loop completes
whenever `overlap ≤ chunk_size // 2`: each step advances `start` strictly. -/
lemma chunkLoop_isSome (text : List Char) (cs ov : Int) (hcs : 0 < cs) (hov : 0 ≤ ov)
    (hsm : ov ≤ Int.fdiv cs 2) :
    ∀ (fuel : Nat) (start : Int), 0 ≤ start → start < (text.length : Int) →
      (text.length : Int) ≤ start + fuel → (chunkLoop text cs ov fuel start).isSome = true := by
  have hfd : Int.fdiv cs 2 = cs / 2 := Int.fdiv_eq_ediv _ (by omega)
  intro fuel
  induction fuel with
  | zero => intro start h0 h1 h2; exact absurd h1 (by push_cast at h2 ⊢; omega)
  | succ f ih =>
    intro start h0 h1 h2
    simp only [chunkLoop]
    rw [if_pos h1]
    rw [Option.isSome_map']
    split_ifs with hb
    · rfl
    · have hlb := chunkEnd_lb text cs ov start hov (by omega) (by omega)
      apply ih
      · omega
      · omega
      · push_cast at h2 ⊢; omega

/-- Every chunk the loop emits is a non-empty stripped window of at most
`chunk_size` characters containing a non-whitespace character. -/
lemma chunkLoop_chunks (text : List Char) (cs ov : Int) (hov : 0 ≤ ov) (hovcs : ov < cs) :
    ∀ (fuel : Nat) (start : Int) (r : List (List Char)), -1 - ov ≤ start →
      chunkLoop text cs ov fuel start = some r →
      ∀ c ∈ r, c ≠ [] ∧ (c.length : Int) ≤ cs ∧ ∃ ch ∈ c, isPySpace ch = false := by
  intro fuel
  induction fuel with
  | zero => intro start r _ h; exact absurd h (by simp [chunkLoop])
  | succ f ih =>
    intro start r hstart h
    simp only [chunkLoop] at h
    by_cases hs : start < (text.length : Int)
    · rw [if_pos hs] at h
      have hcprops : pyStrip (pySlice text start (chunkEnd text cs start)) ≠ [] →
          ((pyStrip (pySlice text start (chunkEnd text cs start))).length : Int) ≤ cs ∧
            ∃ ch ∈ pyStrip (pySlice text start (chunkEnd text cs start)),
              isPySpace ch = false := fun hne =>
        ⟨chunk_window_le text cs ov start hov hovcs hstart hs, pyStrip_nonspace _ hne⟩
      by_cases hb : chunkEnd text cs start - ov ≥ (text.length : Int)
      · rw [if_pos hb] at h
        simp only [Option.map_some', Option.some.injEq] at h
        by_cases hce : (pyStrip (pySlice text start (chunkEnd text cs start))).isEmpty
        · rw [if_pos hce] at h
          intro c hc; rw [← h] at hc; simp at hc
        · rw [if_neg hce] at h
          intro c hc; rw [← h] at hc
          rcases List.mem_cons.1 hc with rfl | hmem
          · have hne : pyStrip (pySlice text start (chunkEnd text cs start)) ≠ [] := by
              simpa [List.isEmpty_iff] using hce
            exact ⟨hne, hcprops hne⟩
          · simp at hmem
      · rw [if_neg hb] at h
        rcases hrec : chunkLoop text cs ov f (chunkEnd text cs start - ov) with _ | r'
        · rw [hrec] at h; exact absurd h (by simp)
        · rw [hrec] at h
          simp only [Option.map_some', Option.some.injEq] at h
          have hstart' : -1 - ov ≤ chunkEnd text cs start - ov := by
            have := chunkEnd_lb text cs ov start hov hovcs hstart
            omega
          have hr' := ih (chunkEnd text cs start - ov) r' hstart' hrec
          intro c hc; rw [← h] at hc
          by_cases hce : (pyStrip (pySlice text start (chunkEnd text cs start))).isEmpty
          · rw [if_pos hce] at hc; exact hr' c hc
          · rw [if_neg hce] at hc
            rcases List.mem_cons.1 hc with rfl | hmem
            · have hne : pyStrip (pySlice text start (chunkEnd text cs start)) ≠ [] := by
                simpa [List.isEmpty_iff] using hce
              exact ⟨hne, hcprops hne⟩
            · exact hr' c hmem
    · rw [if_neg hs] at h
      simp only [Option.some.injEq] at h
      intro c hc; rw [← h] at hc; simp at hc

/-! ## Claims C3, C4 and C6 about the chunker -/

/-- The input on which `chunk_text 10 9` cycles: sentence snapping moves the
window start to `-2`, then `-1`, then back to `0`, forever. -/
def cexChunkText : List Char := "abcdef.ghijk".toList

/-- The three states of the cycle all fail to finish, for every fuel. -/
lemma cexChunk_loop_none : ∀ f : Nat,
    chunkLoop cexChunkText 10 9 f 0 = none ∧
      chunkLoop cexChunkText 10 9 f (-1) = none ∧
        chunkLoop cexChunkText 10 9 f (-2) = none := by
  intro f
  induction f with
  | zero => exact ⟨rfl, rfl, rfl⟩
  | succ f ih =>
    refine ⟨?_, ?_, ?_⟩
    · have h : chunkLoop cexChunkText 10 9 (f + 1) 0 =
          Option.map (fun r => if (pyStrip (pySlice cexChunkText 0 7)).isEmpty then r
            else pyStrip (pySlice cexChunkText 0 7) :: r)
            (chunkLoop cexChunkText 10 9 f (-2)) := rfl
      rw [h, ih.2.2]; rfl
    · have h : chunkLoop cexChunkText 10 9 (f + 1) (-1) =
          Option.map (fun r => if (pyStrip (pySlice cexChunkText (-1) 9)).isEmpty then r
            else pyStrip (pySlice cexChunkText (-1) 9) :: r)
            (chunkLoop cexChunkText 10 9 f 0) := rfl
      rw [h, ih.1]; rfl
    · have h : chunkLoop cexChunkText 10 9 (f + 1) (-2) =
          Option.map (fun r => if (pyStrip (pySlice cexChunkText (-2) 8)).isEmpty then r
            else pyStrip (pySlice cexChunkText (-2) 8) :: r)
            (chunkLoop cexChunkText 10 9 f (-1)) := rfl
      rw [h, ih.2.1]; rfl

/-- C3 counterexample: with `chunk_size = 10 > 0` and `overlap = 9`
satisfying `0 ≤ overlap < chunk_size`, `chunk_text` does not terminate on
the 12-character text `"abcdef.ghijk"`: the window start does not advance
(it cycles through 0, -2, -1), so the claim's termination guarantee fails. -/
theorem chunk_text_loops_forever :
    (0 : Int) < 10 ∧ (0 : Int) ≤ 9 ∧ (9 : Int) < 10 ∧
      ¬ chunkTextTerminates cexChunkText 10 9 := by
  refine ⟨by norm_num, by norm_num, by norm_num, ?_⟩
  rintro ⟨fuel, r, h⟩
  rw [chunk_text, if_neg (by decide)] at h
  rw [(cexChunk_loop_none fuel).1] at h
  exact Option.noConfusion h

/-- C3 (amended): `chunk_text` terminates — with fuel `len(text) + 1`
already — whenever `0 ≤ overlap ≤ chunk_size // 2` (and `chunk_size > 0`);
in that regime the window start strictly advances until it reaches or
exceeds the text length.  For `chunk_size // 2 < overlap < chunk_size` the
start can move backwards and the loop can cycle (see
`chunk_text_loops_forever`). -/
theorem chunk_text_terminates_of_overlap_le_half (text : List Char) (cs ov : Int)
    (hcs : 0 < cs) (hov : 0 ≤ ov) (hsm : ov ≤ Int.fdiv cs 2) :
    (chunk_text text cs ov (text.length + 1)).isSome = true := by
  rw [chunk_text]
  split_ifs with h
  · rfl
  · exact chunkLoop_isSome text cs ov hcs hov hsm (text.length + 1) 0 (by omega)
      (by omega) (by push_cast; omega)

theorem chunk_text_terminates_of_overlap_le_half_witness :
    (0 : Int) < 10 ∧ (0 : Int) ≤ 5 ∧ (5 : Int) ≤ Int.fdiv 10 2 ∧
      (chunk_text "hello world, this is a chunk of text!".toList 10 5
        ("hello world, this is a chunk of text!".toList.length + 1)).isSome = true :=
  ⟨by norm_num, by norm_num, by decide,
    chunk_text_terminates_of_overlap_le_half _ 10 5 (by norm_num) (by norm_num) (by decide)⟩

/-- C6: a text no longer than `chunk_size` is returned as the single,
unchanged chunk `[text]`. -/
theorem chunk_text_short_id (text : List Char) (cs ov : Int) (fuel : Nat)
    (h : (text.length : Int) ≤ cs) : chunk_text text cs ov fuel = some [text] := by
  rw [chunk_text, if_pos h]

theorem chunk_text_short_id_witness :
    (("hi".toList.length : Int) ≤ 1000) ∧
      chunk_text "hi".toList 1000 200 3 = some ["hi".toList] :=
  ⟨by decide, chunk_text_short_id _ _ _ _ (by decide)⟩

/-- C4 counterexample: for the whitespace-only text `" "` (within the size
limit) and valid parameters, `chunk_text` returns a whitespace-only chunk —
the short-text path returns `[text]` without stripping or dropping, so the
claim's "every chunk is non-empty and not whitespace-only" fails. -/
theorem chunk_text_whitespace_chunk :
    chunk_text [' '] 10 2 5 = some [[' ']] ∧ ([' '].all isPySpace) = true :=
  ⟨rfl, rfl⟩

/-- C4 (amended): for every text strictly longer than `chunk_size` (the
sliding-window path) and valid parameters `0 < chunk_size`,
`0 ≤ overlap < chunk_size`, every returned chunk is non-empty, at most
`chunk_size` characters long, and contains a non-whitespace character;
empty and whitespace-only windows are dropped.  For `len(text) ≤
chunk_size` the single returned chunk is the text itself, which may be
empty or whitespace-only (see `chunk_text_whitespace_chunk`). -/
theorem chunk_text_chunks_wellformed (text : List Char) (cs ov : Int) (fuel : Nat)
    (r : List (List Char)) (hcs : 0 < cs) (hov : 0 ≤ ov) (hovcs : ov < cs)
    (hlong : cs < (text.length : Int)) (h : chunk_text text cs ov fuel = some r) :
    ∀ c ∈ r, c ≠ [] ∧ (c.length : Int) ≤ cs ∧ ∃ ch ∈ c, isPySpace ch = false := by
  rw [chunk_text, if_neg (by omega)] at h
  exact chunkLoop_chunks text cs ov hov hovcs fuel 0 r (by omega) h

theorem chunk_text_chunks_wellformed_witness :
    (0 : Int) < 4 ∧ (0 : Int) ≤ 1 ∧ (1 : Int) < 4 ∧
      (4 : Int) < ("ab.cdef".toList.length : Int) ∧
      chunk_text "ab.cdef".toList 4 1 10 =
        some ["ab.c".toList, "cdef".toList, "f".toList] ∧
      ∀ c ∈ ["ab.c".toList, "cdef".toList, "f".toList],
        c ≠ [] ∧ (c.length : Int) ≤ 4 ∧ ∃ ch ∈ c, isPySpace ch = false :=
  ⟨by norm_num, by norm_num, by norm_num, by decide, by decide,
    chunk_text_chunks_wellformed "ab.cdef".toList 4 1 10
      ["ab.c".toList, "cdef".toList, "f".toList] (by norm_num) (by norm_num) (by norm_num)
      (by decide) (by decide)⟩

/-! ## Text normalization (`DocumentProcessor.clean_text`, lines 96-107)

`clean_text` applies three regex substitutions and a strip:
1. `re.sub(r'\s+', ' ')` — every maximal whitespace run becomes one space;
2. `re.sub(r'[^\w\s.,!?;:\-()]', ' ')` — every disallowed character becomes
   a space;
3. `re.sub(r'([.!?]){2,}', r'\1')` — every run of two or more terminal
   punctuation characters collapses to its last character (a repeated
   regex group captures its final repetition);
4. `.strip()`.
Each substitution is embedded as a single left-to-right pass. -/

/-- Pass for regex 1; `prevSpace` records being inside a whitespace run, in
which case further whitespace is dropped (the run already emitted `' '`). -/
def sub_ws_aux (prevSpace : Bool) : List Char → List Char
  | [] => []
  | a :: rest =>
    if isPySpace a then
      (if prevSpace then [] else [' ']) ++ sub_ws_aux true rest
    else a :: sub_ws_aux false rest

/-- `re.sub(r'\s+', ' ', s)`. -/
def sub_ws (s : List Char) : List Char := sub_ws_aux false s

/-- One character of regex 2: disallowed characters become spaces. -/
def allowRepl (c : Char) : Char := if isAllowedChar c then c else ' '

/-- `re.sub(r'[^\w\s.,!?;:\-()]', ' ', s)`. -/
def sub_allow (s : List Char) : List Char := s.map allowRepl

/-- Pass for regex 3; `pending` is the last terminal-punctuation character
of the run currently being scanned, emitted when the run ends.  A length-one
run is unmatched by `{2,}` and re-emitted unchanged, which coincides with
emitting its last character. -/
def sub_punct_aux : Option Char → List Char → List Char
  | pending, [] => pending.toList
  | pending, a :: rest =>
    if isTermPunct a then sub_punct_aux (some a) rest
    else pending.toList ++ a :: sub_punct_aux none rest

/-- `re.sub(r'([.!?]){2,}', r'\1', s)`. -/
def sub_punct (s : List Char) : List Char := sub_punct_aux none s

/-- `DocumentProcessor.clean_text`. -/
def clean_text (s : List Char) : List Char :=
  pyStrip (sub_punct (sub_allow (sub_ws s)))

/-- Whitespace characters of `s`, if any, are plain spaces. -/
def wsIsSpace (c : Char) : Bool := !isPySpace c || (c == ' ')

/-- No two adjacent characters are both terminal punctuation. -/
def noAdjTermPunct : List Char → Bool
  | a :: b :: rest => (!(isTermPunct a && isTermPunct b)) && noAdjTermPunct (b :: rest)
  | _ => true

/-- Some two adjacent characters are both whitespace (a whitespace run of
length at least two). -/
def hasAdjSpace : List Char → Bool
  | a :: b :: rest => (isPySpace a && isPySpace b) || hasAdjSpace (b :: rest)
  | _ => false

/-- Neither the first nor the last character is whitespace. -/
def noEdgeSpace (l : List Char) : Bool :=
  (match l.head? with | some c => !isPySpace c | none => true) &&
    (match l.getLast? with | some c => !isPySpace c | none => true)

/-! ## Lemmas for C7 -/

lemma all_of_sublist {p : Char → Bool} {s l : List Char} (hs : s.Sublist l)
    (h : l.all p = true) : s.all p = true := by
  rw [List.all_eq_true] at h ⊢
  exact fun c hc => h c (hs.subset hc)

lemma all_pyStrip {p : Char → Bool} {l : List Char} (h : l.all p = true) :
    (pyStrip l).all p = true := by
  unfold pyStrip
  rw [List.all_reverse]
  refine all_of_sublist (List.dropWhile_sublist _) ?_
  rw [List.all_reverse]
  exact all_of_sublist (List.dropWhile_sublist _) h

lemma sub_ws_aux_wsSpace : ∀ (l : List Char) (b : Bool),
    (sub_ws_aux b l).all wsIsSpace = true := by
  intro l
  induction l with
  | nil => intro b; rfl
  | cons a rest ih =>
    intro b
    simp only [sub_ws_aux]
    split_ifs with h1 h2 <;> simp_all [wsIsSpace]

lemma sub_allow_ok {x : List Char} (hx : x.all wsIsSpace = true) :
    (sub_allow x).all (fun c => isAllowedChar c && wsIsSpace c) = true := by
  unfold sub_allow
  rw [List.all_map, List.all_eq_true]
  rw [List.all_eq_true] at hx
  intro c hc
  have := hx c hc
  simp only [Function.comp_apply, allowRepl]
  split_ifs with ha
  · simp_all
  · simp [isAllowedChar, isPySpace, wsIsSpace]

lemma sub_punct_aux_all {p : Char → Bool} : ∀ (l : List Char) (pend : Option Char),
    (∀ c ∈ pend.toList, p c = true) → l.all p = true →
      (sub_punct_aux pend l).all p = true := by
  intro l
  induction l with
  | nil =>
    intro pend hp _
    cases pend <;> simpa [sub_punct_aux] using hp
  | cons a rest ih =>
    intro pend hp hl
    rw [List.all_cons, Bool.and_eq_true] at hl
    simp only [sub_punct_aux]
    split_ifs with h1
    · exact ih (some a) (by simpa using hl.1) hl.2
    · rw [List.all_append, Bool.and_eq_true]
      refine ⟨by cases pend <;> simpa using hp, ?_⟩
      rw [List.all_cons, Bool.and_eq_true]
      exact ⟨hl.1, ih none (by simp) hl.2⟩

/-- The adjacency predicate as a `Chain'`, to transport it along
`reverse` and `dropWhile`. -/
lemma noAdjTermPunct_iff_chain' : ∀ l : List Char,
    noAdjTermPunct l = true ↔
      List.Chain' (fun a b => ¬(isTermPunct a = true ∧ isTermPunct b = true)) l := by
  intro l
  induction l with
  | nil => simp [noAdjTermPunct]
  | cons a rest ih =>
    cases rest with
    | nil => simp [noAdjTermPunct]
    | cons b t =>
      have hunf : noAdjTermPunct (a :: b :: t) =
          ((!(isTermPunct a && isTermPunct b)) && noAdjTermPunct (b :: t)) := rfl
      rw [hunf, List.chain'_cons, ← ih]
      cases hpa : isTermPunct a <;> cases hpb : isTermPunct b <;> simp [hpa, hpb]

lemma noAdj_pyStrip {l : List Char} (h : noAdjTermPunct l = true) :
    noAdjTermPunct (pyStrip l) = true := by
  rw [noAdjTermPunct_iff_chain'] at h ⊢
  unfold pyStrip
  have hsymm : ∀ a b : Char, ¬(isTermPunct a = true ∧ isTermPunct b = true) →
      ¬(isTermPunct b = true ∧ isTermPunct a = true) := fun a b hab ⟨x, y⟩ => hab ⟨y, x⟩
  have h1 := h.suffix (List.dropWhile_suffix isPySpace)
  have h2 := List.chain'_reverse.2 (h1.imp hsymm)
  have h3 := h2.suffix (List.dropWhile_suffix isPySpace)
  exact List.chain'_reverse.2 (h3.imp hsymm)

lemma noAdjTermPunct_cons {a : Char} {l : List Char} (ha : isTermPunct a = false)
    (hl : noAdjTermPunct l = true) : noAdjTermPunct (a :: l) = true := by
  cases l <;> simp_all [noAdjTermPunct]

lemma sub_punct_aux_noAdj : ∀ (l : List Char) (pend : Option Char),
    (∀ c ∈ pend.toList, isTermPunct c = true) →
      noAdjTermPunct (sub_punct_aux pend l) = true := by
  intro l
  induction l with
  | nil =>
    intro pend _
    cases pend <;> rfl
  | cons a rest ih =>
    intro pend hp
    simp only [sub_punct_aux]
    split_ifs with h1
    · exact ih (some a) (by simpa using h1)
    · have htail : noAdjTermPunct (a :: sub_punct_aux none rest) = true :=
        noAdjTermPunct_cons (by simpa using h1) (ih none (by simp))
      cases pend with
      | none => simpa using htail
      | some p =>
        simp only [Option.toList, List.cons_append, List.nil_append]
        rw [show ∀ x y (t : List Char), noAdjTermPunct (x :: y :: t) =
            ((!(isTermPunct x && isTermPunct y)) && noAdjTermPunct (y :: t)) from
          fun _ _ _ => rfl]
        rw [Bool.and_eq_true]
        refine ⟨?_, htail⟩
        simp only [Bool.not_eq_true', Bool.and_eq_false_iff]
        right
        simpa using h1

lemma suffix_getLast? {y z : List Char} (hs : y.IsSuffix z) (hne : y ≠ []) :
    y.getLast? = z.getLast? := by
  obtain ⟨t, rfl⟩ := hs
  rw [List.getLast?_append]
  rcases hy : y.getLast? with _ | a
  · exact absurd (List.getLast?_eq_none_iff.1 hy) hne
  · rfl

lemma pyStrip_noEdge (l : List Char) : noEdgeSpace (pyStrip l) = true := by
  unfold noEdgeSpace pyStrip
  rw [Bool.and_eq_true]
  constructor
  · rw [List.head?_reverse]
    rcases hg : ((l.dropWhile isPySpace).reverse.dropWhile isPySpace).getLast? with _ | c
    · rfl
    · have hne : (l.dropWhile isPySpace).reverse.dropWhile isPySpace ≠ [] := by
        intro hh; rw [hh] at hg; exact Option.noConfusion hg
      rw [suffix_getLast? (List.dropWhile_suffix _) hne] at hg
      rw [List.getLast?_reverse] at hg
      have := List.head?_dropWhile_not isPySpace l
      rw [hg] at this
      simpa using this
  · rw [List.getLast?_reverse]
    rcases hg : ((l.dropWhile isPySpace).reverse.dropWhile isPySpace).head? with _ | c
    · rfl
    · have := List.head?_dropWhile_not isPySpace (l.dropWhile isPySpace).reverse
      rw [hg] at this
      simpa using this

/-! ## Claim C7 about `clean_text` -/

/-- C7 counterexample: replacing the disallowed characters of `"a@@b"` each
by a space produces `"a  b"`, whose two adjacent spaces survive to the
output — `clean_text` does not guarantee the absence of whitespace runs. -/
theorem clean_text_adjacent_spaces :
    clean_text "a@@b".toList = "a  b".toList ∧
      hasAdjSpace (clean_text "a@@b".toList) = true := by
  constructor <;> rfl

/-- C7 (amended): every character of `clean_text s` is in the allow-list
(word characters, whitespace, `. , ! ? ; : - ( )`); every whitespace
character of the output is a plain space (but runs of several spaces can
remain where disallowed characters were replaced by spaces — see
`clean_text_adjacent_spaces`); no two adjacent characters are both from
`{., !, ?}`; and the output has no leading or trailing whitespace. -/
theorem clean_text_normalized (s : List Char) :
    (clean_text s).all isAllowedChar = true ∧
      (clean_text s).all wsIsSpace = true ∧
        noAdjTermPunct (clean_text s) = true ∧
          noEdgeSpace (clean_text s) = true := by
  have hok : (sub_punct (sub_allow (sub_ws s))).all
      (fun c => isAllowedChar c && wsIsSpace c) = true :=
    sub_punct_aux_all _ none (by simp)
      (sub_allow_ok (sub_ws_aux_wsSpace s false))
  have hstr := all_pyStrip hok
  rw [List.all_eq_true] at hstr
  refine ⟨?_, ?_, ?_, pyStrip_noEdge _⟩
  · rw [List.all_eq_true]
    intro c hc
    have := hstr c hc
    simp only [Bool.and_eq_true] at this
    exact this.1
  · rw [List.all_eq_true]
    intro c hc
    have := hstr c hc
    simp only [Bool.and_eq_true] at this
    exact this.2
  · exact noAdj_pyStrip (sub_punct_aux_noAdj _ none (by simp))

/-! ## Settings (`backend/config/settings.py`) -/

/-- `Settings.CHUNK_SIZE`. -/
def CHUNK_SIZE : Int := 1000

/-- `Settings.CHUNK_OVERLAP`. -/
def CHUNK_OVERLAP : Int := 200

/-- `Settings.TOP_K_RESULTS`. -/
def TOP_K_RESULTS : Nat := 5

/-! ## Document processing (`DocumentProcessor.process_documents`, lines 65-94) -/

/-- Counting pass for Python `len(s.split())`: the number of maximal
non-whitespace runs. -/
def wordCountAux (inWord : Bool) : List Char → Nat
  | [] => 0
  | c :: rest =>
    if isPySpace c then wordCountAux false rest
    else (if inWord then 0 else 1) + wordCountAux true rest

/-- Python `len(s.split())`. -/
def pyWordCount (s : List Char) : Nat := wordCountAux false s

/-- A crawler document as consumed by `process_documents`: `doc['url']` is
accessed unconditionally; `text` defaults to `''` (`doc.get('text', '')`),
`title` and `timestamp` are optional with defaults applied at access. -/
structure PyDoc where
  url : List Char
  title : Option (List Char)
  text : List Char
  timestamp : Option (List Char)

/-- A chunk record as built by `process_documents` (document_processor.py
lines 82-91), with the `embedding` key that `create_embeddings` may add
later (`none` = key absent). -/
structure ChunkRec where
  id : List Char
  text : List Char
  url : List Char
  title : List Char
  chunk_index : Nat
  total_chunks : Nat
  timestamp : List Char
  word_count : Nat
  embedding : Option (List ℚ)

/-- `chunk_text` at the configured defaults (`chunk_size=1000`,
`overlap=200`).  Fuel `len(text) + 1` provably suffices here because
`200 ≤ 1000 // 2` (see `chunkLoop_isSome`), so the `getD` default is
unreachable. -/
def chunk_text_run (text : List Char) : List (List Char) :=
  (chunk_text text CHUNK_SIZE CHUNK_OVERLAP (text.length + 1)).getD []

/-- One chunk record (`chunk_data`, lines 82-91); `i` is the `enumerate`
index and `total` the chunk count of the document. -/
def mkChunkRec (doc : PyDoc) (total : Nat) (i : Nat) (c : List Char) : ChunkRec :=
  { id := doc.url ++ "#chunk_".toList ++ Nat.toDigits 10 i
    text := c
    url := doc.url
    title := doc.title.getD "Untitled".toList
    chunk_index := i
    total_chunks := total
    timestamp := doc.timestamp.getD []
    word_count := pyWordCount c
    embedding := none }

/-- The `for i, chunk in enumerate(chunks)` loop. -/
def mkChunksAux (doc : PyDoc) (total : Nat) : Nat → List (List Char) → List ChunkRec
  | _, [] => []
  | i, c :: rest => mkChunkRec doc total i c :: mkChunksAux doc total (i + 1) rest

/-- The chunk records derived from one document: clean, chunk, then build
records with `total_chunks = len(chunks)`. -/
def docChunks (doc : PyDoc) : List ChunkRec :=
  let chunks := chunk_text_run (clean_text doc.text)
  mkChunksAux doc chunks.length 0 chunks

/-- `DocumentProcessor.process_documents`: documents with empty (or
missing) `text` are skipped; all other documents contribute their chunk
records in order. -/
def process_documents (docs : List PyDoc) : List ChunkRec :=
  docs.flatMap (fun d => if d.text.isEmpty then [] else docChunks d)

/-- Fallback record for indexed access (`List.getD`). -/
def dummyChunk : ChunkRec := mkChunkRec ⟨[], none, [], none⟩ 0 0 []

lemma mkChunksAux_length (doc : PyDoc) (total : Nat) :
    ∀ (l : List (List Char)) (i : Nat), (mkChunksAux doc total i l).length = l.length := by
  intro l
  induction l with
  | nil => intro i; rfl
  | cons c rest ih => intro i; simp [mkChunksAux, ih]

lemma mkChunksAux_getD (doc : PyDoc) (total : Nat) :
    ∀ (l : List (List Char)) (i j : Nat), j < l.length →
      (mkChunksAux doc total i l).getD j dummyChunk =
        mkChunkRec doc total (i + j) (l.getD j []) := by
  intro l
  induction l with
  | nil => intro i j h; simp at h
  | cons c rest ih =>
    intro i j h
    cases j with
    | zero => rfl
    | succ j =>
      simp only [mkChunksAux, List.getD_cons_succ]
      rw [ih (i + 1) j (by simpa using h)]
      congr 1
      omega

/-! ## Claim C5 about `process_documents` -/

/-- C5: within the block of chunk records that `process_documents` derives
from one document, the record at position `j` has `chunk_index = j` (so the
indices form the contiguous range `0..total_chunks-1`), `total_chunks`
equal to the number of chunks of the document, `id = url + "#chunk_" +
str(chunk_index)`, and `url`, `title`, `timestamp` shared with the
document (hence identical across the document's chunks). -/
theorem process_documents_invariants (doc : PyDoc) (j : Nat)
    (h : j < (process_documents [doc]).length) :
    ((process_documents [doc]).getD j dummyChunk).chunk_index = j ∧
      ((process_documents [doc]).getD j dummyChunk).total_chunks =
        (process_documents [doc]).length ∧
      ((process_documents [doc]).getD j dummyChunk).id =
        doc.url ++ "#chunk_".toList ++ Nat.toDigits 10 j ∧
      ((process_documents [doc]).getD j dummyChunk).url = doc.url ∧
      ((process_documents [doc]).getD j dummyChunk).title =
        doc.title.getD "Untitled".toList ∧
      ((process_documents [doc]).getD j dummyChunk).timestamp =
        doc.timestamp.getD [] := by
  have hsingle : process_documents [doc] =
      if doc.text.isEmpty then [] else docChunks doc := by
    simp [process_documents]
  rw [hsingle] at h ⊢
  split_ifs at h ⊢ with ht
  · simp at h
  · unfold docChunks at h ⊢
    rw [mkChunksAux_length] at h
    rw [mkChunksAux_getD doc _ _ 0 j h, mkChunksAux_length]
    simp [mkChunkRec]

theorem process_documents_invariants_witness :
    (0 < (process_documents [⟨"https://e.com/a".toList, some "T".toList,
        "hi".toList, some "2024-01-01".toList⟩]).length) ∧
      (((process_documents [⟨"https://e.com/a".toList, some "T".toList,
          "hi".toList, some "2024-01-01".toList⟩]).getD 0 dummyChunk).chunk_index = 0 ∧
        ((process_documents [⟨"https://e.com/a".toList, some "T".toList,
          "hi".toList, some "2024-01-01".toList⟩]).getD 0 dummyChunk).total_chunks =
          (process_documents [⟨"https://e.com/a".toList, some "T".toList,
            "hi".toList, some "2024-01-01".toList⟩]).length ∧
        ((process_documents [⟨"https://e.com/a".toList, some "T".toList,
          "hi".toList, some "2024-01-01".toList⟩]).getD 0 dummyChunk).id =
          "https://e.com/a".toList ++ "#chunk_".toList ++ Nat.toDigits 10 0 ∧
        ((process_documents [⟨"https://e.com/a".toList, some "T".toList,
          "hi".toList, some "2024-01-01".toList⟩]).getD 0 dummyChunk).url =
          "https://e.com/a".toList ∧
        ((process_documents [⟨"https://e.com/a".toList, some "T".toList,
          "hi".toList, some "2024-01-01".toList⟩]).getD 0 dummyChunk).title =
          (some "T".toList).getD "Untitled".toList ∧
        ((process_documents [⟨"https://e.com/a".toList, some "T".toList,
          "hi".toList, some "2024-01-01".toList⟩]).getD 0 dummyChunk).timestamp =
          (some "2024-01-01".toList).getD []) :=
  ⟨by decide, process_documents_invariants _ 0 (by decide)⟩

/-! ## Embedder (`DocumentProcessor.create_embeddings`, lines 109-143)

The OpenAI embeddings call is an oracle `svc` from a batch of texts to
either a list of vectors or a raised exception.  Float vectors are carried
as `List ℚ` (no arithmetic is ever performed on them; the literal `0.0`
maps to `0`).  The loop walks the texts in batches of 100; a failed batch
contributes `[[0.0] * 1536 for _ in batch_texts]`. -/

/-- The `for i in range(0, len(texts), batch_size)` loop (lines 120-136),
accumulating `embeddings`. -/
def embedBatches (svc : List (List Char) → Except Unit (List (List ℚ))) :
    List (List Char) → List (List ℚ)
  | [] => []
  | t :: rest =>
    (match svc ((t :: rest).take 100) with
     | .ok vs => vs
     | .error _ =>
       List.replicate ((t :: rest).take 100).length (List.replicate 1536 (0 : ℚ))) ++
      embedBatches svc ((t :: rest).drop 100)
termination_by ts => ts.length
decreasing_by simp [List.length_drop]; omega

/-- The `for chunk, embedding in zip(chunks, embeddings)` mutation (lines
139-140): each chunk in the zipped range gets its `embedding` key set; the
whole (mutated) chunk list is returned. -/
def attachEmb : List ChunkRec → List (List ℚ) → List ChunkRec
  | [], _ => []
  | c :: cs, [] => c :: cs
  | c :: cs, v :: vs => { c with embedding := some v } :: attachEmb cs vs

/-- `DocumentProcessor.create_embeddings`. -/
def create_embeddings (svc : List (List Char) → Except Unit (List (List ℚ)))
    (chunks : List ChunkRec) : List ChunkRec :=
  attachEmb chunks (embedBatches svc (chunks.map (fun c => c.text)))

/-- A chunk record with its `embedding` key removed, for frame
comparisons. -/
def eraseEmb (r : ChunkRec) : ChunkRec := { r with embedding := none }

/-! ## Lemmas for C2 and C10 -/

lemma attachEmb_length : ∀ (cs : List ChunkRec) (vs : List (List ℚ)),
    (attachEmb cs vs).length = cs.length := by
  intro cs
  induction cs with
  | nil => intro vs; cases vs <;> rfl
  | cons c cs ih =>
    intro vs
    cases vs with
    | nil => rfl
    | cons v vs => simp [attachEmb, ih]

lemma attachEmb_getD : ∀ (cs : List ChunkRec) (vs : List (List ℚ)) (j : Nat),
    j < cs.length →
      (attachEmb cs vs).getD j dummyChunk =
        match vs[j]? with
        | some v => { cs.getD j dummyChunk with embedding := some v }
        | none => cs.getD j dummyChunk := by
  intro cs
  induction cs with
  | nil => intro vs j h; simp at h
  | cons c cs ih =>
    intro vs j h
    cases vs with
    | nil => simp [attachEmb]
    | cons v vs =>
      cases j with
      | zero => simp [attachEmb]
      | succ j =>
        simp only [attachEmb, List.getD_cons_succ, List.getElem?_cons_succ]
        exact ih vs j (by simpa using h)

/-- Position `j` of the accumulated embeddings list: the zero vector if the
batch containing `j` failed, otherwise the vector the service returned at
the position of `j` inside its batch. -/
lemma embedBatches_getElem? (svc : List (List Char) → Except Unit (List (List ℚ)))
    (hsvc : ∀ b v, svc b = Except.ok v → v.length = b.length) :
    ∀ (n : Nat) (ts : List (List Char)) (j : Nat), ts.length ≤ n → j < ts.length →
      (embedBatches svc ts)[j]? =
        match svc ((ts.drop (100 * (j / 100))).take 100) with
        | .error _ => some (List.replicate 1536 (0 : ℚ))
        | .ok vs => vs[j % 100]? := by
  intro n
  induction n with
  | zero => intro ts j h1 h2; omega
  | succ n ih =>
    intro ts j h1 h2
    cases ts with
    | nil => simp at h2
    | cons t rest =>
      simp only [List.length_cons] at h1 h2
      have hblock : (match svc ((t :: rest).take 100) with
          | .ok vs => vs
          | .error _ =>
            List.replicate ((t :: rest).take 100).length
              (List.replicate 1536 (0 : ℚ))).length =
          ((t :: rest).take 100).length := by
        cases hsv : svc ((t :: rest).take 100) with
        | ok vs => exact hsvc _ _ hsv
        | error e => rw [List.length_replicate]
      have hbl : ((t :: rest).take 100).length = min 100 (rest.length + 1) := by
        rw [List.length_take, List.length_cons]
      rw [show embedBatches svc (t :: rest) =
          (match svc ((t :: rest).take 100) with
           | .ok vs => vs
           | .error _ =>
             List.replicate ((t :: rest).take 100).length
               (List.replicate 1536 (0 : ℚ))) ++
            embedBatches svc ((t :: rest).drop 100) from by rw [embedBatches]]
      by_cases hj : j < 100
      · have hjb : j < (match svc ((t :: rest).take 100) with
            | .ok vs => vs
            | .error _ =>
              List.replicate ((t :: rest).take 100).length
                (List.replicate 1536 (0 : ℚ))).length := by
          rw [hblock, hbl]
          omega
        rw [List.getElem?_append_left hjb]
        have hd0 : 100 * (j / 100) = 0 := by omega
        have hm0 : j % 100 = j := by omega
        rw [hd0, hm0, List.drop_zero]
        cases hsv : svc ((t :: rest).take 100) with
        | ok vs => simp only [hsv]
        | error e =>
          simp only [hsv]
          rw [List.getElem?_replicate_of_lt]
          rw [hbl]
          omega
      · have hjb : (match svc ((t :: rest).take 100) with
            | .ok vs => vs
            | .error _ =>
              List.replicate ((t :: rest).take 100).length
                (List.replicate 1536 (0 : ℚ))).length ≤ j := by
          rw [hblock, hbl]
          omega
        rw [List.getElem?_append_right hjb]
        have hlen100 : (match svc ((t :: rest).take 100) with
            | .ok vs => vs
            | .error _ =>
              List.replicate ((t :: rest).take 100).length
                (List.replicate 1536 (0 : ℚ))).length = 100 := by
          rw [hblock, hbl]
          omega
        rw [hlen100]
        rw [ih ((t :: rest).drop 100) (j - 100)
          (by rw [List.length_drop, List.length_cons]; omega)
          (by rw [List.length_drop, List.length_cons]; omega)]
        rw [List.drop_drop]
        have he1 : 100 + 100 * ((j - 100) / 100) = 100 * (j / 100) := by omega
        have he2 : (j - 100) % 100 = j % 100 := by omega
        rw [he1, he2]

/-! ## Claims C2 and C10 about `create_embeddings` -/

/-- C2: when the embedding service honours its length contract on
successful batches, `create_embeddings` returns a list of the same length
with every position carrying an embedding: position `j` carries the zero
vector of dimension 1536 exactly when the service call for `j`'s batch
(texts `100*(j/100) .. 100*(j/100)+99`) failed, and otherwise the vector
the service returned for position `j % 100` of that batch. -/
theorem create_embeddings_spec (svc : List (List Char) → Except Unit (List (List ℚ)))
    (chunks : List ChunkRec)
    (hsvc : ∀ b v, svc b = Except.ok v → v.length = b.length) :
    (create_embeddings svc chunks).length = chunks.length ∧
      ∀ j, j < chunks.length →
        ((create_embeddings svc chunks).getD j dummyChunk).embedding =
          match svc (((chunks.map (fun c => c.text)).drop (100 * (j / 100))).take 100) with
          | .error _ => some (List.replicate 1536 (0 : ℚ))
          | .ok vs => vs[j % 100]? := by
  constructor
  · exact attachEmb_length _ _
  · intro j hj
    have hjt : j < (chunks.map (fun c => c.text)).length := by simpa using hj
    have hvec := embedBatches_getElem? svc hsvc
      (chunks.map (fun c => c.text)).length (chunks.map (fun c => c.text)) j
      le_rfl hjt
    rw [create_embeddings, attachEmb_getD _ _ j hj, hvec]
    cases hsv : svc (((chunks.map (fun c => c.text)).drop (100 * (j / 100))).take 100) with
    | ok vs =>
      have hvl : vs.length = (((chunks.map (fun c => c.text)).drop
          (100 * (j / 100))).take 100).length := hsvc _ _ hsv
      have hjm : j % 100 < vs.length := by
        rw [hvl]
        simp only [List.length_take, List.length_drop, List.length_map]
        omega
      dsimp only
      rw [List.getElem?_eq_getElem hjm]
    | error e => rfl

theorem create_embeddings_spec_witness :
    (∀ b v, (fun _ : List (List Char) => (Except.error () : Except Unit (List (List ℚ)))) b =
        Except.ok v → v.length = b.length) ∧
      ((create_embeddings (fun _ => Except.error ()) [dummyChunk]).length = 1 ∧
        ∀ j, j < ([dummyChunk] : List ChunkRec).length →
          ((create_embeddings (fun _ => Except.error ()) [dummyChunk]).getD j
              dummyChunk).embedding =
            match (fun _ : List (List Char) =>
                (Except.error () : Except Unit (List (List ℚ))))
                ((([dummyChunk].map (fun c => c.text)).drop (100 * (j / 100))).take 100) with
            | .error _ => some (List.replicate 1536 (0 : ℚ))
            | .ok vs => vs[j % 100]?) :=
  ⟨fun _ v h => Except.noConfusion h,
    create_embeddings_spec (fun _ => Except.error ()) [dummyChunk]
      (fun _ v h => Except.noConfusion h)⟩

/-- C10: `create_embeddings` only touches the `embedding` key: the returned
list has the same length, and at every position the record agrees with the
input record on every other field (`id`, `text`, `url`, `title`,
`chunk_index`, `total_chunks`, `timestamp`, `word_count`).  This needs no
assumption on the service. -/
theorem create_embeddings_frame (svc : List (List Char) → Except Unit (List (List ℚ)))
    (chunks : List ChunkRec) :
    (create_embeddings svc chunks).length = chunks.length ∧
      ∀ j, j < chunks.length →
        eraseEmb ((create_embeddings svc chunks).getD j dummyChunk) =
          eraseEmb (chunks.getD j dummyChunk) := by
  constructor
  · exact attachEmb_length _ _
  · intro j hj
    rw [create_embeddings, attachEmb_getD _ _ j hj]
    cases (embedBatches svc (chunks.map (fun c => c.text)))[j]? <;> rfl

theorem create_embeddings_frame_witness :
    (create_embeddings (fun _ => Except.error ()) [dummyChunk]).length = 1 ∧
      ∀ j, j < ([dummyChunk] : List ChunkRec).length →
        eraseEmb ((create_embeddings (fun _ => Except.error ()) [dummyChunk]).getD j
            dummyChunk) =
          eraseEmb (([dummyChunk] : List ChunkRec).getD j dummyChunk) :=
  create_embeddings_frame (fun _ => Except.error ()) [dummyChunk]

/-! ## Processed-data persistence (`save_processed_data`, lines 145-150, and
`load_documents`, lines 14-25)

`save_processed_data` passes the chunk list to `json.dump` as-is;
`load_documents` returns whatever `json.load` parses, or `[]` on a missing
file / malformed JSON.  The JSON text layer is the Python standard library
(an external collaborator per the spec's interface section), modeled as an
abstract dump/parse pair `dmp`/`lod` over JSON values that satisfies the
round-trip contract `lod (dmp v) = some v`; a parse failure is `none`.
Numbers are carried as `ℚ` (no arithmetic is performed; Python ints and
floats are carried opaquely). -/

/-- JSON values. -/
inductive JVal where
  | jnull : JVal
  | jbool : Bool → JVal
  | jnum : ℚ → JVal
  | jstr : List Char → JVal
  | jarr : List JVal → JVal
  | jobj : List (List Char × JVal) → JVal

/-- The JSON object for one chunk record, with keys in Python dict
insertion order (the eight keys of `process_documents`' `chunk_data`, then
`embedding` when `create_embeddings` has added it). -/
def chunkToJson (c : ChunkRec) : JVal :=
  JVal.jobj
    ([("id".toList, JVal.jstr c.id), ("text".toList, JVal.jstr c.text),
      ("url".toList, JVal.jstr c.url), ("title".toList, JVal.jstr c.title),
      ("chunk_index".toList, JVal.jnum c.chunk_index),
      ("total_chunks".toList, JVal.jnum c.total_chunks),
      ("timestamp".toList, JVal.jstr c.timestamp),
      ("word_count".toList, JVal.jnum c.word_count)] ++
      (match c.embedding with
       | some v => [("embedding".toList, JVal.jarr (v.map JVal.jnum))]
       | none => []))

/-- The JSON array `json.dump` receives for a chunk list. -/
def chunksToJson (l : List ChunkRec) : JVal := JVal.jarr (l.map chunkToJson)

/-- Reading an embedding vector back from its JSON array. -/
def decodeVec : List JVal → Option (List ℚ)
  | [] => some []
  | JVal.jnum q :: rest => (decodeVec rest).map (fun v => q :: v)
  | _ => none

/-- Reading one chunk record back from its JSON object (accepting exactly
the shapes `chunkToJson` writes). -/
def jsonToChunk : JVal → Option ChunkRec
  | JVal.jobj [(k1, JVal.jstr idv), (k2, JVal.jstr textv), (k3, JVal.jstr urlv),
      (k4, JVal.jstr titlev), (k5, JVal.jnum q5), (k6, JVal.jnum q6),
      (k7, JVal.jstr tsv), (k8, JVal.jnum q8)] =>
    if k1 = "id".toList ∧ k2 = "text".toList ∧ k3 = "url".toList ∧
        k4 = "title".toList ∧ k5 = "chunk_index".toList ∧
        k6 = "total_chunks".toList ∧ k7 = "timestamp".toList ∧
        k8 = "word_count".toList ∧ q5.den = 1 ∧ 0 ≤ q5.num ∧ q6.den = 1 ∧
        0 ≤ q6.num ∧ q8.den = 1 ∧ 0 ≤ q8.num then
      some ⟨idv, textv, urlv, titlev, q5.num.toNat, q6.num.toNat, tsv,
        q8.num.toNat, none⟩
    else none
  | JVal.jobj [(k1, JVal.jstr idv), (k2, JVal.jstr textv), (k3, JVal.jstr urlv),
      (k4, JVal.jstr titlev), (k5, JVal.jnum q5), (k6, JVal.jnum q6),
      (k7, JVal.jstr tsv), (k8, JVal.jnum q8), (k9, JVal.jarr ev)] =>
    if k1 = "id".toList ∧ k2 = "text".toList ∧ k3 = "url".toList ∧
        k4 = "title".toList ∧ k5 = "chunk_index".toList ∧
        k6 = "total_chunks".toList ∧ k7 = "timestamp".toList ∧
        k8 = "word_count".toList ∧ k9 = "embedding".toList ∧ q5.den = 1 ∧
        0 ≤ q5.num ∧ q6.den = 1 ∧ 0 ≤ q6.num ∧ q8.den = 1 ∧ 0 ≤ q8.num then
      match decodeVec ev with
      | some vec =>
        some ⟨idv, textv, urlv, titlev, q5.num.toNat, q6.num.toNat, tsv,
          q8.num.toNat, some vec⟩
      | none => none
    else none
  | _ => none

/-- Reading a chunk list back from its JSON array elements. -/
def decodeChunkList : List JVal → Option (List ChunkRec)
  | [] => some []
  | v :: rest =>
    match jsonToChunk v with
    | some c => (decodeChunkList rest).map (fun l => c :: l)
    | none => none

/-- Reading a chunk list back from the JSON value of the processed file. -/
def jsonToChunks : JVal → Option (List ChunkRec)
  | JVal.jarr l => decodeChunkList l
  | _ => none

/-- `DocumentProcessor.save_processed_data`: `json.dump(chunks, f, ...)` —
the chunk list is written as-is through the JSON layer `dmp`. -/
def save_processed_data {F : Type} (dmp : JVal → F) (chunks : List ChunkRec) : F :=
  dmp (chunksToJson chunks)

/-- `DocumentProcessor.load_documents`: `json.load(f)` with
`FileNotFoundError` / `JSONDecodeError` handlers returning `[]`. -/
def load_documents {F : Type} (lod : F → Option JVal) (f : F) : JVal :=
  (lod f).getD (JVal.jarr [])

/-! ## Lemmas for C9 -/

lemma decodeVec_roundtrip : ∀ v : List ℚ, decodeVec (v.map JVal.jnum) = some v := by
  intro v
  induction v with
  | nil => rfl
  | cons q rest ih => simp [decodeVec, ih]

lemma jsonToChunk_roundtrip (c : ChunkRec) : jsonToChunk (chunkToJson c) = some c := by
  rcases c with ⟨idv, textv, urlv, titlev, ci, tc, tsv, wc, emb⟩
  cases emb with
  | none =>
    simp [chunkToJson, jsonToChunk, Rat.den_natCast, Rat.num_natCast]
  | some v =>
    simp [chunkToJson, jsonToChunk, Rat.den_natCast, Rat.num_natCast,
      decodeVec_roundtrip]

lemma decodeChunkList_roundtrip : ∀ l : List ChunkRec,
    decodeChunkList (l.map chunkToJson) = some l := by
  intro l
  induction l with
  | nil => rfl
  | cons c rest ih => simp [decodeChunkList, jsonToChunk_roundtrip, ih]

/-! ## Claim C9 about the save/load round-trip -/

/-- C9: for any JSON layer satisfying the dump/parse round-trip contract,
`load_documents` after `save_processed_data` returns exactly the JSON value
of the chunk list, and that value decodes back to the identical record
list — same length, same order, same value in every field (`embedding`
included).  The repository performs no projection or reordering on either
side. -/
theorem save_load_roundtrip {F : Type} (dmp : JVal → F) (lod : F → Option JVal)
    (hrt : ∀ v, lod (dmp v) = some v) (chunks : List ChunkRec) :
    load_documents lod (save_processed_data dmp chunks) = chunksToJson chunks ∧
      jsonToChunks (chunksToJson chunks) = some chunks := by
  constructor
  · rw [save_processed_data, load_documents, hrt]
    rfl
  · rw [chunksToJson]
    exact decodeChunkList_roundtrip chunks

theorem save_load_roundtrip_witness :
    load_documents some (save_processed_data id [dummyChunk]) =
        chunksToJson [dummyChunk] ∧
      jsonToChunks (chunksToJson [dummyChunk]) = some [dummyChunk] :=
  save_load_roundtrip id some (fun _ => rfl) [dummyChunk]

/-! ## Vector store (`PineconeVectorStore`, vector_store.py)

The Pinecone client and the OpenAI client are oracles in a `VSEnv`:
`indexSet` is whether `self.index` is already set, `connect` the outcome of
`connect_to_index` (which catches, logs and RE-raises — line 61), and
`embedQuery` / `indexQuery` / `describeStats` the remote calls.  Note that
`search` and `get_index_stats` call `connect_to_index` BEFORE their `try`
blocks, so a connection failure propagates to their callers. -/

/-- One formatted search result (and, structurally identical, one Pinecone
match with its metadata): the fields `search` reads at lines 123-133. -/
structure SearchMatch where
  id : List Char
  score : ℚ
  text : List Char
  url : List Char
  title : List Char
  chunk_index : Nat
  total_chunks : Nat
  word_count : Nat

/-- The remote collaborators of `PineconeVectorStore`. -/
structure VSEnv where
  indexSet : Bool
  connect : Except Unit Unit
  embedQuery : List Char → Except Unit (List ℚ)
  indexQuery : List ℚ → Nat → Except Unit (List SearchMatch)
  describeStats : Except Unit Nat

/-- `PineconeVectorStore.connect_to_index` (lines 50-61): the `except`
handler prints and re-raises, so the outcome is the collaborator's. -/
def connect_to_index (env : VSEnv) : Except Unit Unit := env.connect

/-- The result-dict construction of `search` (lines 123-134): a
field-for-field copy of the match and its metadata. -/
def formatMatch (m : SearchMatch) : SearchMatch :=
  { id := m.id, score := m.score, text := m.text, url := m.url, title := m.title,
    chunk_index := m.chunk_index, total_chunks := m.total_chunks,
    word_count := m.word_count }

/-- `PineconeVectorStore.search` (lines 98-140): connect first (outside the
`try`, so its failure propagates), then embed the query and query the
index inside a `try` whose handler returns `[]`. -/
def search (env : VSEnv) (query : List Char) (top_k : Nat) :
    Except Unit (List SearchMatch) :=
  match (if env.indexSet then Except.ok () else connect_to_index env) with
  | .error e => .error e
  | .ok _ =>
    match env.embedQuery query with
    | .error _ => .ok []
    | .ok emb =>
      match env.indexQuery emb top_k with
      | .error _ => .ok []
      | .ok ms => .ok (ms.map formatMatch)

/-- The list `search` returns when the connection step does not raise. -/
def searchDocs (env : VSEnv) (query : List Char) (top_k : Nat) : List SearchMatch :=
  match env.embedQuery query with
  | .error _ => []
  | .ok emb =>
    match env.indexQuery emb top_k with
    | .error _ => []
    | .ok ms => ms.map formatMatch

/-- `PineconeVectorStore.get_index_stats` (lines 153-163): connect first
(outside the `try`), then `describe_index_stats` inside a `try` whose
handler returns `None`. -/
def get_index_stats (env : VSEnv) : Except Unit (Option Nat) :=
  match (if env.indexSet then Except.ok () else connect_to_index env) with
  | .error e => .error e
  | .ok _ =>
    match env.describeStats with
    | .ok s => .ok (some s)
    | .error _ => .ok none

lemma connectStep_ok (env : VSEnv)
    (h : env.indexSet = true ∨ env.connect = Except.ok ()) :
    (if env.indexSet then Except.ok () else connect_to_index env) = Except.ok () := by
  rcases h with h | h
  · rw [if_pos h]
  · by_cases hs : env.indexSet
    · rw [if_pos hs]
    · rw [if_neg hs]; exact h

lemma search_ok (env : VSEnv) (q : List Char) (k : Nat)
    (h : env.indexSet = true ∨ env.connect = Except.ok ()) :
    search env q k = Except.ok (searchDocs env q k) := by
  rw [search, connectStep_ok env h]
  rw [searchDocs]
  cases hq : env.embedQuery q with
  | error e => rfl
  | ok emb =>
    dsimp only
    cases hx : env.indexQuery emb k <;> rfl

/-! ## RAG pipeline (`RAGPipeline`, rag_pipeline.py) -/

/-- The collaborators of `RAGPipeline`: the vector store plus the chat
completion call (`system_prompt`, `user_prompt` ↦ generated answer). -/
structure RAGEnv where
  vs : VSEnv
  chat : List Char → List Char → Except Unit (List Char)

/-- One of the sources of a response (`ask`, lines 104-112). -/
structure RAGSource where
  title : List Char
  url : List Char
  relevance_score : ℚ
  snippet : List Char

/-- The response dict of `ask` (lines 97-113); `sources = none` models the
key being absent when `include_sources` is false. -/
structure RAGResponse where
  query : List Char
  answer : List Char
  context_used : Bool
  sources : Option (List RAGSource)

/-- The fixed system prompt of `generate_answer` (lines 42-56). -/
def system_prompt : List Char :=
  ("You are an expert assistant specializing in Model Context Protocol (MCP). \nYou help developers understand MCP concepts, implement MCP solutions, and troubleshoot MCP-related issues.\n\nYour responses should be:\n1. Accurate and based on the provided context\n2. Developer-focused with practical examples when relevant\n3. Clear and well-structured\n4. Honest about limitations - if you don\x27t know something, say so\n\nWhen answering questions:\n- Use the provided context as your primary source of information\n- If the context doesn\x27t contain enough information, acknowledge this\n- Provide code examples when relevant and available in the context\n- Reference specific parts of the documentation when helpful\n- Suggest next steps or related topics when appropriate").toList

/-- The user prompt of `generate_answer` (lines 58-65). -/
def user_prompt (context query : List Char) : List Char :=
  "Based on the following context about Model Context Protocol (MCP), please answer the user\x27s question.\n\nContext:\n".toList ++
    context ++ "\n\nQuestion: ".toList ++ query ++
      "\n\nPlease provide a comprehensive answer based on the context provided. If the context doesn\x27t contain enough information to fully answer the question, please say so and provide what information you can.".toList

/-- The fixed apology `generate_answer` returns when the completion call
raises (line 82). -/
def apology : List Char :=
  "I apologize, but I encountered an error while generating the answer. Please try again.".toList

/-- Python `f"{score:.3f}"` on the similarity score.  The score is an
opaque float carried as `ℚ`; this decimal rendering rounds half up where
CPython's float formatting rounds the underlying binary float half to
even — no claim depends on the rendered digits. -/
def format3f (q : ℚ) : List Char :=
  let r : Int := ⌊q * 1000 + 1 / 2⌋
  let a : Nat := r.natAbs
  let frac := Nat.toDigits 10 (a % 1000)
  (if r < 0 then ['-'] else []) ++ Nat.toDigits 10 (a / 1000) ++
    '.' :: (List.replicate (3 - frac.length) '0' ++ frac)

/-- One numbered context block of `format_context` (lines 29-34). -/
def mkContextPart (i : Nat) (d : SearchMatch) : List Char :=
  "\nContext ".toList ++ Nat.toDigits 10 i ++ " (Score: ".toList ++
    format3f d.score ++ "):\nTitle: ".toList ++ d.title ++ "\nURL: ".toList ++
      d.url ++ "\nContent: ".toList ++ d.text ++ "\n".toList

/-- The numbered blocks, `enumerate(retrieved_docs, 1)`. -/
def contextParts (i : Nat) : List SearchMatch → List (List Char)
  | [] => []
  | d :: rest => mkContextPart i d :: contextParts (i + 1) rest

/-- Python `"\n".join(parts)`. -/
def joinNl : List (List Char) → List Char
  | [] => []
  | [p] => p
  | p :: rest => p ++ '\n' :: joinNl rest

/-- `RAGPipeline.format_context` (lines 22-37). -/
def format_context (docs : List SearchMatch) : List Char :=
  if docs.isEmpty then "No relevant context found.".toList
  else joinNl (contextParts 1 docs)

/-- `RAGPipeline.generate_answer` (lines 39-82): the completion call inside
a `try` whose handler returns the fixed apology string. -/
def generate_answer (env : RAGEnv) (query context : List Char) : List Char :=
  match env.chat system_prompt (user_prompt context query) with
  | .ok ans => ans
  | .error _ => apology

/-- `RAGPipeline.retrieve_context` (lines 14-20) at the default
`top_k = settings.TOP_K_RESULTS`. -/
def retrieve_context (env : RAGEnv) (query : List Char) :
    Except Unit (List SearchMatch) :=
  search env.vs query TOP_K_RESULTS

/-- The source record of `ask` (lines 106-111), with the 200-character
snippet truncation. -/
def mkSource (d : SearchMatch) : RAGSource :=
  { title := d.title, url := d.url, relevance_score := d.score,
    snippet := if 200 < d.text.length then d.text.take 200 ++ "...".toList
      else d.text }

/-- `RAGPipeline.ask` (lines 84-115).  Nothing catches an exception raised
by the retrieval step, so it propagates. -/
def ask (env : RAGEnv) (query : List Char) (include_sources : Bool) :
    Except Unit RAGResponse :=
  match retrieve_context env query with
  | .error e => .error e
  | .ok docs =>
    .ok { query := query
          answer := generate_answer env query (format_context docs)
          context_used := decide (0 < docs.length)
          sources := if include_sources then some (docs.map mkSource) else none }

/-! ## Claims C1 and C8 -/

/-- A vector store whose index handle is unset and whose connection attempt
fails. -/
def cexVSDown : VSEnv :=
  { indexSet := false, connect := Except.error (),
    embedQuery := fun _ => Except.error (),
    indexQuery := fun _ _ => Except.error (),
    describeStats := Except.error () }

/-- A healthy vector store returning one match, with a failing stats call. -/
def vsUp : VSEnv :=
  { indexSet := true, connect := Except.ok (),
    embedQuery := fun _ => Except.ok [],
    indexQuery := fun _ _ => Except.ok
      [⟨"u#chunk_0".toList, 1, "hello".toList, "u".toList, "T".toList, 0, 1, 1⟩],
    describeStats := Except.error () }

/-- A pipeline whose vector store is down. -/
def cexEnvDown : RAGEnv := { vs := cexVSDown, chat := fun _ _ => Except.error () }

/-- A pipeline with a healthy vector store but a failing generation call. -/
def cexEnvGenFail : RAGEnv := { vs := vsUp, chat := fun _ _ => Except.error () }

/-- The observable outcome of `ask`: `none` if it raised, otherwise the
answer string and the `context_used` flag. -/
def askOutcome (x : Except Unit RAGResponse) : Option (List Char × Bool) :=
  match x with
  | .ok r => some (r.answer, r.context_used)
  | .error _ => none

/-- C1 counterexample.  First conjunct: when the index handle is unset and
`connect_to_index` fails, `ask` raises (`connect_to_index` re-raises and
`search` calls it outside its `try`), so `ask` does not always return a
response dict.  Second conjunct: when retrieval succeeds with one document
and only the generation call fails, the answer is the fixed apology but
`context_used` is `true`, not `false`. -/
theorem ask_raises_or_context_used :
    ask cexEnvDown "q".toList true = Except.error () ∧
      askOutcome (ask cexEnvGenFail "q".toList true) = some (apology, true) :=
  ⟨rfl, rfl⟩

/-- C1 (amended): whenever the retrieval step does not raise — the index
handle is set, or `connect_to_index` succeeds — `ask` returns a response
dict (never an exception) echoing the query; if the generation call fails
the answer is the fixed apology string; and `context_used` equals whether
any documents were retrieved (so a generation failure alone does not force
it to `false`). -/
theorem ask_total_when_index_available (env : RAGEnv) (q : List Char) (inc : Bool)
    (h : env.vs.indexSet = true ∨ env.vs.connect = Except.ok ()) :
    ∃ r, ask env q inc = Except.ok r ∧ r.query = q ∧
      r.context_used = decide (0 < (searchDocs env.vs q TOP_K_RESULTS).length) ∧
      ∀ e, env.chat system_prompt
          (user_prompt (format_context (searchDocs env.vs q TOP_K_RESULTS)) q) =
            Except.error e → r.answer = apology := by
  refine ⟨{ query := q
            answer := generate_answer env q
              (format_context (searchDocs env.vs q TOP_K_RESULTS))
            context_used := decide (0 < (searchDocs env.vs q TOP_K_RESULTS).length)
            sources := if inc then
                some ((searchDocs env.vs q TOP_K_RESULTS).map mkSource)
              else none }, ?_, rfl, rfl, ?_⟩
  · rw [ask, retrieve_context, search_ok env.vs q TOP_K_RESULTS h]
  · intro e he
    show generate_answer env q _ = apology
    rw [generate_answer, he]

theorem ask_total_when_index_available_witness :
    (ask cexEnvGenFail "q".toList true).isOk = true := by
  obtain ⟨r, hr, -, -, -⟩ :=
    ask_total_when_index_available cexEnvGenFail "q".toList true (Or.inl rfl)
  rw [hr]
  rfl

/-- C8 counterexample: with no index handle set and a failing
`connect_to_index`, `get_index_stats` raises to its caller instead of
returning `None` — the connection step runs before the `try` block. -/
theorem get_index_stats_raises :
    get_index_stats cexVSDown = Except.error () := rfl

/-- C8 (amended): whenever the connection step does not raise — the index
handle is set, or `connect_to_index` succeeds — `get_index_stats` returns
normally: `None` when `describe_index_stats` fails, and the stats payload
when it succeeds. -/
theorem get_index_stats_total_when_index_available (env : VSEnv)
    (h : env.indexSet = true ∨ env.connect = Except.ok ()) :
    ∃ r, get_index_stats env = Except.ok r ∧
      (∀ e, env.describeStats = Except.error e → r = none) ∧
      ∀ s, env.describeStats = Except.ok s → r = some s := by
  rw [get_index_stats, connectStep_ok env h]
  cases hd : env.describeStats with
  | ok s =>
    exact ⟨some s, rfl, fun e he => Except.noConfusion he,
      fun s' hs => by cases hs; rfl⟩
  | error e =>
    exact ⟨none, rfl, fun _ _ => rfl, fun s' hs => Except.noConfusion hs⟩

theorem get_index_stats_total_witness :
    (get_index_stats vsUp).isOk = true := by
  obtain ⟨r, hr, -, -⟩ :=
    get_index_stats_total_when_index_available vsUp (Or.inl rfl)
  rw [hr]
  rfl

end MCP
